import Mathlib

/-!
# Verification of the eagle.tunnel.go split-DNS resolver and config loader

Shallow embedding of `server/protocols/et/cmd/dns.go` (the ET DNS
sub-protocol: hosts overlay, smart/enable proxy modes, local/remote
resolution with a deduplicating cache) and of the pure parts of
`src/eagletunnel/controler.go` (config-line parsing and hosts loading).
Go strings are modelled as `String`/`List Char`; Go's multiple return
values become tuples; the mutable `*comm.NetArg` becomes explicit state
passing.  Collaborators that live outside the embedded files (the
`comm` package globals, the text cache library, the tunnel) are
modelled from the specification and marked as such.
-/

namespace GoStrings

/-- Go `strings.Split(s, sep)` for a one-character separator, on char
lists (Lean's own `String.splitOn` is not kernel-reducible, so we give
the splitter directly; Go's semantics for a non-empty separator is
leftmost non-overlapping splitting). -/
def splitChar (sep : Char) : List Char → List (List Char)
  | [] => [[]]
  | c :: rest =>
    if c = sep then [] :: splitChar sep rest
    else
      match splitChar sep rest with
      | [] => [[c]]
      | p :: ps => (c :: p) :: ps

/-- Go `strings.Split` on `String`s with a one-character separator. -/
def split (sep : Char) (s : String) : List String :=
  (splitChar sep s.data).map String.mk

end GoStrings

namespace ET

/-- Domain classification carried by a `NetArg`.
Modelled from the spec: `domain-type ∈ {DIRECT, PROXY, UNCERTAIN}`;
in `smartSend` the `switch` matches `comm.DirectDomain`,
`comm.ProxyDomain`, with everything else treated as uncertain. -/
inductive DomainType where
  | direct
  | proxy
  | uncertain
deriving DecidableEq, Repr

/-- Modelled from the spec: `comm.NetArg` (not under src/): "domain
(optional); ip (optional); port; location (country code, optional);
domain-type".  The Go struct embeds `NetConnArg{Domain, IP, Port}`;
we flatten it. -/
structure NetArg where
  domain : String := ""
  ip : String := ""
  port : String := ""
  location : String := ""
  domainType : DomainType := .uncertain
deriving DecidableEq, Repr

/-- Modelled from the spec: `proxy-status ∈ {ENABLE, SMART}`.  The Go
value is an int; `DNS.Send` switches on `comm.ProxySMART` and
`comm.ProxyENABLE` with a default error branch, which we represent by
a third constructor. -/
inductive ProxyStatus where
  | enable
  | smart
  | invalid
deriving DecidableEq, Repr

/-- Error values returned by the embedded functions.  `adHostsFound`
is `ErrADHostsFound`, `invalidProxyStatus` is `ErrInvalidProxyStatus`,
`reqTooShort` is `errors.New("ETDNS.Handle -> req is too short")`,
`invalidReply` is `errors.New("invalid reply")`, `resolver msg` wraps
an error returned by the injected `DNS.DNSResolver`. -/
inductive DNSError where
  | adHostsFound
  | invalidProxyStatus
  | reqTooShort
  | invalidReply
  | resolver (msg : String)
deriving DecidableEq, Repr

/-- Modelled from the spec: the environment of the `DNS` sub-protocol
object — the injected `DNSResolver` field together with the `comm`
package collaborators that are not under src/: the hosts overlay
(`comm.HostsCache`), the routing policy (`comm.DefaultArg.ProxyStatus`),
the raw remote query (`comm.SendQueryReq`, returning the reply string
and an error), the LOCATION sub-sender (`comm.SubSenders[comm.LOCATION]
.Send`, which synchronously fills the NetArg's Location field; its
error is discarded by the caller), the policy check
(`checkProxyByLocation`) and the sub-protocol name (`Name()`). -/
structure DNSEnv where
  hostsCache : String → Option String
  proxyStatus : ProxyStatus
  dnsResolver : String → String × Option String
  sendQueryReq : String → String × Option String
  locSend : NetArg → String
  checkProxyByLocation : String → Bool
  name : String

/-- The resolver's mutable state: the two deduplicating caches
(`dnsLocalCache`, `dnsRemoteCache`), modelled sequentially as
association lists of published domain→ip entries (a destroyed node
leaves no entry), plus instrumentation recording each underlying
invocation: `localCalls` logs the domains passed to the injected
`DNSResolver`, `remoteCalls` logs the request strings passed to
`comm.SendQueryReq`. -/
structure DNSState where
  localCache : List (String × String) := []
  remoteCache : List (String × String) := []
  localCalls : List String := []
  remoteCalls : List String := []
deriving DecidableEq, Repr

/-- Joint result of a resolver step: the (possibly updated) `NetArg`,
the state, and the returned error. -/
structure DNSOut where
  arg : NetArg
  st : DNSState
  err : Option DNSError
deriving DecidableEq, Repr

/-- Embedding of `func (d *DNS) look4Hosts(domain string) (ip string, ok bool, err error)`:
map lookup in `comm.HostsCache`; when found and the value is the
sentinel `"::"`, the error is `ErrADHostsFound`. -/
def look4Hosts (hostsCache : String → Option String) (domain : String) :
    String × Bool × Option DNSError :=
  match hostsCache domain with
  | none => ("", false, none)
  | some ip => (ip, true, if ip = "::" then some .adHostsFound else none)

/-- Embedding of `sendQuery` (cmd/sendquery file): prefixes the request with the
sub-protocol name and forwards to `comm.SendQueryReq`.  Returns the
reply string, its error, and the state with the request recorded. -/
def sendQuery (env : DNSEnv) (st : DNSState) (req : String) :
    (String × Option String) × DNSState :=
  let req := env.name ++ " " ++ req
  (env.sendQueryReq req, { st with remoteCalls := st.remoteCalls ++ [req] })

end ET

namespace GoNet

/-! Model of Go stdlib `net.ParseIP` (as of the Go releases the source
targets, 2019): dotted-decimal IPv4 when the first separator seen is
`'.'`, IPv6 (with optional `%zone` suffix) when it is `':'`. -/

/-- Go `internal` helper `dtoi`: parse a decimal prefix; returns
(value, chars consumed, ok); fails when there is no digit or the
accumulator reaches `big = 0xFFFFFF`. -/
def dtoiAux : List Char → Nat → Nat → Nat × Nat × Bool
  | [], n, i => if i = 0 then (0, 0, false) else (n, i, true)
  | c :: rest, n, i =>
    if '0' ≤ c ∧ c ≤ '9' then
      let n' := n * 10 + (c.toNat - '0'.toNat)
      if n' ≥ 0xFFFFFF then (0xFFFFFF, i + 1, false)
      else dtoiAux rest n' (i + 1)
    else if i = 0 then (0, 0, false) else (n, i, true)

/-- Entry point of `dtoi`. -/
def dtoi (s : List Char) : Nat × Nat × Bool := dtoiAux s 0 0

/-- Go helper `xtoi`: parse a hexadecimal prefix; returns
(value, chars consumed, ok). -/
def xtoiAux : List Char → Nat → Nat → Nat × Nat × Bool
  | [], n, i => if i = 0 then (0, i, false) else (n, i, true)
  | c :: rest, n, i =>
    if '0' ≤ c ∧ c ≤ '9' then
      let n' := n * 16 + (c.toNat - '0'.toNat)
      if n' ≥ 0xFFFFFF then (0, i + 1, false) else xtoiAux rest n' (i + 1)
    else if 'a' ≤ c ∧ c ≤ 'f' then
      let n' := n * 16 + (c.toNat - 'a'.toNat) + 10
      if n' ≥ 0xFFFFFF then (0, i + 1, false) else xtoiAux rest n' (i + 1)
    else if 'A' ≤ c ∧ c ≤ 'F' then
      let n' := n * 16 + (c.toNat - 'A'.toNat) + 10
      if n' ≥ 0xFFFFFF then (0, i + 1, false) else xtoiAux rest n' (i + 1)
    else if i = 0 then (0, i, false) else (n, i, true)

/-- Entry point of `xtoi`. -/
def xtoi (s : List Char) : Nat × Nat × Bool := xtoiAux s 0 0

/-- The field loop of Go `parseIPv4`: `k` fields remain; a `'.'` is
required before every field except the first (`acc = []`); each field
is a decimal ≤ 0xFF; the whole string must be consumed. -/
def parseIPv4Loop : Nat → List Char → List Nat → Option (List Nat)
  | 0, s, acc => if s.isEmpty then some acc.reverse else none
  | k + 1, s, acc =>
    if s.isEmpty then none
    else
      let s1 : Option (List Char) :=
        if acc.isEmpty then some s
        else match s with
          | '.' :: r => some r
          | _ => none
      match s1 with
      | none => none
      | some s2 =>
        let (n, c, ok) := dtoi s2
        if ok = false ∨ n > 0xFF then none
        else parseIPv4Loop k (s2.drop c) (n :: acc)

/-- Go `parseIPv4`: four dotted decimal fields, returned as the 4
address bytes. -/
def parseIPv4 (s : List Char) : Option (List Nat) := parseIPv4Loop 4 s []

/-- The main loop of Go `parseIPv6`.  Arguments: fuel (the loop runs at
most 8 times since `i` grows by 2), the remaining string, the byte
index `i`, the bytes emitted so far, and the ellipsis position.
Returns the bytes, final `i`, ellipsis and remaining string, or `none`
on a parse error. -/
def parseIPv6Loop :
    Nat → List Char → Nat → List Nat → Option Nat →
    Option (List Nat × Nat × Option Nat × List Char)
  | 0, _, _, _, _ => none
  | fuel + 1, s, i, acc, ell =>
    if i < 16 then
      let (n, c, ok) := xtoi s
      if ok = false ∨ n > 0xFFFF then none
      else
        match s.drop c with
        | '.' :: _ =>
          if ell.isNone ∧ i ≠ 12 then none
          else if i + 4 > 16 then none
          else match parseIPv4 s with
            | none => none
            | some ip4 => some (acc ++ ip4, i + 4, ell, [])
        | _ =>
          let acc := acc ++ [n / 256, n % 256]
          let i := i + 2
          match s.drop c with
          | [] => some (acc, i, ell, [])
          | ':' :: rest =>
            match rest with
            | [] => none
            | ':' :: rest2 =>
              if ell.isSome then none
              else if rest2.isEmpty then some (acc, i, some i, [])
              else parseIPv6Loop fuel rest2 i acc (some i)
            | _ => parseIPv6Loop fuel rest i acc ell
          | _ => none
    else some (acc, i, ell, s)

/-- Go `parseIPv6`: leading `::` handling, the group loop, then the
trailing checks and the ellipsis expansion to 16 bytes. -/
def parseIPv6 (s : List Char) : Option (List Nat) :=
  let pre : List Char × Option Nat :=
    match s with
    | ':' :: ':' :: rest => (rest, some 0)
    | _ => (s, none)
  let s1 := pre.1
  let ell := pre.2
  if ell = some 0 ∧ s1.isEmpty then some (List.replicate 16 0)
  else
    match parseIPv6Loop 17 s1 0 [] ell with
    | none => none
    | some (acc, i, ell2, srem) =>
      if ¬ srem.isEmpty then none
      else if i < 16 then
        match ell2 with
        | none => none
        | some e => some (acc.take e ++ List.replicate (16 - i) 0 ++ acc.drop e)
      else if ell2.isSome then none
      else some acc

/-- Scan for the first `'.'` or `':'` in the string, deciding between
the IPv4 and IPv6 parser (the `switch` inside Go `ParseIP`). -/
def findKind : List Char → Option Bool
  | [] => none
  | '.' :: _ => some true
  | ':' :: _ => some false
  | _ :: rest => findKind rest

/-- Index of the last occurrence of `c`, if any (Go helper `last`). -/
def lastIndexOf (c : Char) (s : List Char) : Option Nat :=
  (List.range s.length).foldl
    (fun acc i => if s.getD i ' ' = c then some i else acc) none

/-- Go `splitHostZone`: strip a `%zone` suffix (split at the last `'%'`
when its index is positive). -/
def splitHostZoneHost (s : List Char) : List Char :=
  match lastIndexOf '%' s with
  | some i => if i > 0 then s.take i else s
  | none => s

/-- Go `net.ParseIP`, returning the address bytes. -/
def parseIP (s : String) : Option (List Nat) :=
  match findKind s.data with
  | some true => parseIPv4 s.data
  | some false => parseIPv6 (splitHostZoneHost s.data)
  | none => none

end GoNet

namespace ET

/-- Embedding of `func (d *DNS) _resolvDNSByProxy(e *comm.NetArg) (err error)`:
issue the remote query, store the reply in `e.IP`, and fail with
`invalid reply` exactly when the reply does not parse as an IP
literal.  Note that the Go code overwrites the error returned by
`sendQuery` with the result of the `ParseIP` check. -/
def _resolvDNSByProxy (env : DNSEnv) (st : DNSState) (e : NetArg) : DNSOut :=
  let ((v, _qerr), st1) := sendQuery env st e.domain
  let e1 := { e with ip := v }
  if (GoNet.parseIP v).isNone then ⟨e1, st1, some .invalidReply⟩
  else ⟨e1, st1, none⟩

/-- Embedding of `func (d *DNS) resolvDNSByProxy(e *comm.NetArg) (err error)`:
the caching wrapper of the remote path.  A published cache node yields
its value (`node.Wait`); on a miss the creator runs
`_resolvDNSByProxy` and then publishes (`node.Update`) on success or
destroys the node (`node.Destroy`) on failure.  Modelled from the
spec for the cache library (§4.5): a published node is the
domain→ip entry, a destroyed node leaves the cache unchanged. -/
def resolvDNSByProxy (env : DNSEnv) (st : DNSState) (e : NetArg) : DNSOut :=
  match st.remoteCache.lookup e.domain with
  | some ip => ⟨{ e with ip := ip }, st, none⟩
  | none =>
    let r := _resolvDNSByProxy env st e
    match r.err with
    | some er => ⟨r.arg, r.st, some er⟩
    | none =>
      ⟨r.arg, { r.st with remoteCache := (e.domain, r.arg.ip) :: r.st.remoteCache },
        none⟩

/-- Embedding of `func (d *DNS) _resolvDNSByLocal(e *comm.NetArg) (err error)`:
call the injected `DNSResolver`, store its value in `e.IP`, and pass
its error through (the warning log has no semantic effect). -/
def _resolvDNSByLocal (env : DNSEnv) (st : DNSState) (e : NetArg) : DNSOut :=
  let (v, err) := env.dnsResolver e.domain
  ⟨{ e with ip := v }, { st with localCalls := st.localCalls ++ [e.domain] },
    err.map .resolver⟩

/-- Embedding of `func (d *DNS) resolvDNSByLocal(e *comm.NetArg) (err error)`:
the caching wrapper of the local path, symmetric to
`resolvDNSByProxy`. -/
def resolvDNSByLocal (env : DNSEnv) (st : DNSState) (e : NetArg) : DNSOut :=
  match st.localCache.lookup e.domain with
  | some ip => ⟨{ e with ip := ip }, st, none⟩
  | none =>
    let r := _resolvDNSByLocal env st e
    match r.err with
    | some er => ⟨r.arg, r.st, some er⟩
    | none =>
      ⟨r.arg, { r.st with localCache := (e.domain, r.arg.ip) :: r.st.localCache },
        none⟩

/-- Embedding of `func (d *DNS) resolvDNSByLocation(e *comm.NetArg) (err error)`:
resolve locally (the returned error is not propagated), let the
LOCATION sub-sender fill `e.Location`, and if `checkProxyByLocation`
flags the location, re-resolve the same domain through the remote path
on a fresh NetArg and copy its IP into `e`. -/
def resolvDNSByLocation (env : DNSEnv) (st : DNSState) (e : NetArg) : DNSOut :=
  let r1 := resolvDNSByLocal env st e
  let e2 := { r1.arg with location := env.locSend r1.arg }
  if ¬ env.checkProxyByLocation e2.location then ⟨e2, r1.st, none⟩
  else
    let ne : NetArg := { domain := e2.domain }
    let r2 := resolvDNSByProxy env r1.st ne
    ⟨{ e2 with ip := r2.arg.ip }, r2.st, r2.err⟩

/-- Embedding of `func (d *DNS) smartSend(e *comm.NetArg) (err error)`: dispatch on
the domain type — direct domains go local, proxy domains go remote,
anything else is decided by location. -/
def smartSend (env : DNSEnv) (st : DNSState) (e : NetArg) : DNSOut :=
  match e.domainType with
  | .direct => resolvDNSByLocal env st e
  | .proxy => resolvDNSByProxy env st e
  | .uncertain => resolvDNSByLocation env st e

/-- Embedding of `func (d *DNS) proxySend(e *comm.NetArg) error`. -/
def proxySend (env : DNSEnv) (st : DNSState) (e : NetArg) : DNSOut :=
  resolvDNSByProxy env st e

/-- Embedding of `func (d *DNS) Send(e *comm.NetArg) (err error)`: hosts overlay
first (returning its error, or the found IP, without touching the
network), then dispatch on the proxy status. -/
def Send (env : DNSEnv) (st : DNSState) (e : NetArg) : DNSOut :=
  let (ip, ok, err) := look4Hosts env.hostsCache e.domain
  match err with
  | some er => ⟨e, st, some er⟩
  | none =>
    if ok then ⟨{ e with ip := ip }, st, none⟩
    else
      match env.proxyStatus with
      | .smart => smartSend env st e
      | .enable => proxySend env st e
      | .invalid => ⟨e, st, some .invalidProxyStatus⟩

/-- Result of `DNS.Handle`: the lines written on the tunnel, the
resolver state, and the returned error. -/
structure HandleOut where
  writes : List String
  st : DNSState
  err : Option DNSError
deriving DecidableEq, Repr

/-- Embedding of `func (d *DNS) Handle(req string, t *tunnel.Tunnel) (err error)`:
split the request on spaces; fewer than two fields is an error;
otherwise resolve the second field via the local path only and write
the resulting IP back on the tunnel.  Modelled from the spec for the
tunnel (§4.2): `WriteLeftStr` appends the line to the tunnel's write
log and succeeds. -/
def Handle (env : DNSEnv) (st : DNSState) (t : List String) (req : String) :
    HandleOut :=
  let reqs := GoStrings.split ' ' req
  if reqs.length < 2 then ⟨t, st, some .reqTooShort⟩
  else
    let e : NetArg := { domain := reqs.getD 1 "" }
    let r := resolvDNSByLocal env st e
    match r.err with
    | some er => ⟨t, r.st, some er⟩
    | none => ⟨t ++ [r.arg.ip], r.st, none⟩

end ET

namespace ET

/-! ## Basic facts about the resolver paths -/

/-- The local path never touches the remote cache or issues remote
queries, and preserves the domain. -/
theorem resolvDNSByLocal_frame (env : DNSEnv) (st : DNSState) (e : NetArg) :
    (resolvDNSByLocal env st e).st.remoteCache = st.remoteCache ∧
    (resolvDNSByLocal env st e).st.remoteCalls = st.remoteCalls ∧
    (resolvDNSByLocal env st e).arg.domain = e.domain := by
  unfold resolvDNSByLocal _resolvDNSByLocal
  cases h : st.localCache.lookup e.domain with
  | none =>
    cases he : (env.dnsResolver e.domain).2 with
    | none => simp [he]
    | some m => simp [he]
  | some ip => simp

end ET

namespace ET

/-! ## Example environment used by the witnesses -/

/-- A concrete hosts overlay: one ad-blocked domain and one ordinary
entry. -/
def egHosts : String → Option String := fun d =>
  if d = "ads.example" then some "::"
  else if d = "www.example" then some "93.184.216.34"
  else none

/-- A concrete environment for evaluating the resolver. -/
def egEnv : DNSEnv where
  hostsCache := egHosts
  proxyStatus := .smart
  dnsResolver := fun d =>
    if d = "direct.example" then ("1.2.3.4", none) else ("", some "lookup failed")
  sendQueryReq := fun _ => ("5.6.7.8", none)
  locSend := fun e => if e.ip = "1.2.3.4" then "CN" else "US"
  checkProxyByLocation := fun loc => loc ≠ "CN"
  name := "DNS"

/-! ## C2/C3/C9: the hosts overlay short-circuits `Send` -/

/-- C2: a hosts-overlay hit with a non-sentinel IP makes `DNS.Send`
return that IP in the NetArg and leaves the resolver state — caches
and both call logs — untouched, so neither the local OS resolver nor
the remote DNS path is invoked, whatever the proxy-status. -/
theorem Send_hosts_hit_no_network (env : DNSEnv) (st : DNSState) (e : NetArg)
    (ip : String) (hh : env.hostsCache e.domain = some ip) (hip : ip ≠ "::") :
    Send env st e = ⟨{ e with ip := ip }, st, none⟩ := by
  unfold Send look4Hosts
  rw [hh]
  simp [hip]

/-- Witness for C2 at a concrete input. -/
theorem Send_hosts_hit_no_network_witness :
    egEnv.hostsCache "www.example" = some "93.184.216.34" ∧
    ("93.184.216.34" : String) ≠ "::" ∧
    Send egEnv {} { domain := "www.example" } =
      ⟨{ domain := "www.example", ip := "93.184.216.34" }, {}, none⟩ :=
  ⟨by decide, by decide,
    Send_hosts_hit_no_network egEnv {} { domain := "www.example" }
      "93.184.216.34" (by decide) (by decide)⟩

/-- C3: a hosts-overlay entry equal to the sentinel `"::"` makes
`DNS.Send` fail with `ErrADHostsFound`, and any other entry never
produces that error (the call returns with no error at all). -/
theorem Send_adhosts_sentinel (env : DNSEnv) (st : DNSState) (e : NetArg)
    (ip : String) (hh : env.hostsCache e.domain = some ip) :
    (ip = "::" → Send env st e = ⟨e, st, some .adHostsFound⟩) ∧
    (ip ≠ "::" → (Send env st e).err ≠ some .adHostsFound) := by
  constructor
  · intro h
    subst h
    unfold Send look4Hosts
    rw [hh]
    simp
  · intro h
    unfold Send look4Hosts
    rw [hh]
    simp [h]

/-- Witness for C3 at concrete inputs (both branches). -/
theorem Send_adhosts_sentinel_witness :
    egEnv.hostsCache "ads.example" = some "::" ∧
    Send egEnv {} { domain := "ads.example" } =
      ⟨{ domain := "ads.example" }, {}, some .adHostsFound⟩ ∧
    egEnv.hostsCache "www.example" = some "93.184.216.34" ∧
    (Send egEnv {} { domain := "www.example" }).err ≠ some .adHostsFound :=
  ⟨by decide,
    (Send_adhosts_sentinel egEnv {} { domain := "ads.example" } "::"
      (by decide)).1 rfl,
    by decide,
    (Send_adhosts_sentinel egEnv {} { domain := "www.example" } "93.184.216.34"
      (by decide)).2 (by decide)⟩

/-- C9: when `DNS.Send` fails with `ErrADHostsFound`, the NetArg is
returned exactly as given — in particular its IP field is not set to
`"::"` or anything else — and the resolver state is unchanged. -/
theorem Send_adhosts_frame (env : DNSEnv) (st : DNSState) (e : NetArg)
    (hh : env.hostsCache e.domain = some "::") :
    Send env st e = ⟨e, st, some .adHostsFound⟩ := by
  unfold Send look4Hosts
  rw [hh]
  simp

/-- Witness for C9 at a concrete input: the IP field stays empty. -/
theorem Send_adhosts_frame_witness :
    egEnv.hostsCache "ads.example" = some "::" ∧
    Send egEnv {} { domain := "ads.example", ip := "" } =
      ⟨{ domain := "ads.example", ip := "" }, {}, some .adHostsFound⟩ :=
  ⟨by decide, Send_adhosts_frame egEnv {} { domain := "ads.example", ip := "" }
    (by decide)⟩

end ET

namespace ET

/-! ## C1: smart mode on an uncertain domain -/

/-- C1: in smart mode, for a NetArg whose domain type is neither
DIRECT nor PROXY and whose domain is not in the hosts overlay,
`DNS.Send` first resolves via the local path, then submits the
resulting NetArg (carrying the local IP) to the LOCATION sub-sender
and checks the obtained location; if the location is flagged as
requiring proxying the local result is discarded and the same domain
is resolved via the remote path, whose IP is returned in the NetArg;
otherwise the local-path IP is returned. -/
theorem Send_smart_uncertain (env : DNSEnv) (st : DNSState) (e : NetArg)
    (hh : env.hostsCache e.domain = none)
    (hp : env.proxyStatus = .smart)
    (ht : e.domainType = .uncertain) :
    Send env st e =
      (let r1 := resolvDNSByLocal env st e
       let e2 := { r1.arg with location := env.locSend r1.arg }
       if env.checkProxyByLocation e2.location then
         let r2 := resolvDNSByProxy env r1.st { domain := e.domain }
         ⟨{ e2 with ip := r2.arg.ip }, r2.st, r2.err⟩
       else ⟨e2, r1.st, none⟩) := by
  have hdom := (resolvDNSByLocal_frame env st e).2.2
  unfold Send look4Hosts
  rw [hh]
  simp only [hp]
  unfold smartSend
  rw [ht]
  unfold resolvDNSByLocation
  by_cases hc :
      env.checkProxyByLocation
        { (resolvDNSByLocal env st e).arg with
            location := env.locSend (resolvDNSByLocal env st e).arg }.location
  · simp [hc, hdom]
  · simp [hc, hdom]

/-- Witness for C1 at a concrete input taking the flagged (remote)
branch: the local path answers `1.2.3.4`, located in `CN` which the
policy does not flag here, so we pick a domain the local resolver
fails on, located in `US`, flagged, and the remote reply `5.6.7.8` is
returned. -/
theorem Send_smart_uncertain_witness :
    egEnv.hostsCache "uncertain.example" = none ∧
    egEnv.proxyStatus = .smart ∧
    (({ domain := "uncertain.example" } : NetArg).domainType = .uncertain) ∧
    Send egEnv {} { domain := "uncertain.example" } =
      (let r1 := resolvDNSByLocal egEnv {} { domain := "uncertain.example" }
       let e2 := { r1.arg with location := egEnv.locSend r1.arg }
       if egEnv.checkProxyByLocation e2.location then
         let r2 := resolvDNSByProxy egEnv r1.st { domain := "uncertain.example" }
         ⟨{ e2 with ip := r2.arg.ip }, r2.st, r2.err⟩
       else ⟨e2, r1.st, none⟩) :=
  ⟨by decide, rfl, rfl,
    Send_smart_uncertain egEnv {} { domain := "uncertain.example" }
      (by decide) rfl rfl⟩

/-! ## C10: a failed local resolution can be reported as success -/

/-- C10: in `resolvDNSByLocation`, when the local cache misses and the
injected resolver fails (returning the empty string and an error), and
the subsequent location check does not flag the location, the function
returns no error while the NetArg's IP is left empty — the local-path
error is discarded. -/
theorem resolvDNSByLocation_discards_local_error (env : DNSEnv)
    (st : DNSState) (e : NetArg) (msg : String)
    (hmiss : st.localCache.lookup e.domain = none)
    (hres : env.dnsResolver e.domain = ("", some msg))
    (hloc : env.checkProxyByLocation
      (env.locSend { e with ip := "" }) = false) :
    (resolvDNSByLocation env st e).err = none ∧
    (resolvDNSByLocation env st e).arg.ip = "" ∧
    (resolvDNSByLocal env st e).err = some (.resolver msg) := by
  have hlocal : resolvDNSByLocal env st e =
      ⟨{ e with ip := "" },
        { st with localCalls := st.localCalls ++ [e.domain] },
        some (.resolver msg)⟩ := by
    unfold resolvDNSByLocal _resolvDNSByLocal
    rw [hmiss, hres]
    rfl
  refine ⟨?_, ?_, by simp [hlocal]⟩ <;>
  · unfold resolvDNSByLocation
    rw [hlocal]
    simp [hloc]

/-- A variant environment whose resolver always fails and whose
location policy flags only `"CN"`, so `"US"` is not flagged. -/
def egEnvDirectUS : DNSEnv where
  hostsCache := egHosts
  proxyStatus := .smart
  dnsResolver := fun _ => ("", some "lookup failed")
  sendQueryReq := fun _ => ("5.6.7.8", none)
  locSend := fun _ => "US"
  checkProxyByLocation := fun loc => loc = "CN"
  name := "DNS"

/-- Witness for C10 at a concrete input: the resolver fails on
`fail.example`, which is then located in `US`, a location the policy
does not flag. -/
theorem resolvDNSByLocation_discards_local_error_witness :
    (({} : DNSState).localCache.lookup "fail.example" = none) ∧
    egEnvDirectUS.dnsResolver "fail.example" = ("", some "lookup failed") ∧
    egEnvDirectUS.checkProxyByLocation
      (egEnvDirectUS.locSend { domain := "fail.example", ip := "" }) = false ∧
    (resolvDNSByLocation egEnvDirectUS {} { domain := "fail.example" }).err
        = none ∧
    (resolvDNSByLocation egEnvDirectUS {} { domain := "fail.example" }).arg.ip
        = "" ∧
    (resolvDNSByLocal egEnvDirectUS {} { domain := "fail.example" }).err
        = some (.resolver "lookup failed") :=
  ⟨by decide, by decide, by decide,
    (resolvDNSByLocation_discards_local_error egEnvDirectUS {}
      { domain := "fail.example" } "lookup failed"
      (by decide) (by decide) (by decide)).1,
    (resolvDNSByLocation_discards_local_error egEnvDirectUS {}
      { domain := "fail.example" } "lookup failed"
      (by decide) (by decide) (by decide)).2.1,
    (resolvDNSByLocation_discards_local_error egEnvDirectUS {}
      { domain := "fail.example" } "lookup failed"
      (by decide) (by decide) (by decide)).2.2⟩

end ET

namespace ET
/-! ## C4: an unparseable remote reply fails without poisoning the cache -/

/-- An environment whose remote reply is not an IP literal. -/
def egEnvBadReply : DNSEnv where
  hostsCache := fun _ => none
  proxyStatus := .enable
  dnsResolver := fun _ => ("", some "lookup failed")
  sendQueryReq := fun _ => ("not an ip", none)
  locSend := fun _ => "US"
  checkProxyByLocation := fun _ => true
  name := "DNS"

/-- C4: on a remote-cache miss, when the remote reply does not parse
as an IPv4/IPv6 literal, `resolvDNSByProxy` returns the invalid-reply
error, the freshly created cache node is destroyed rather than
published (the remote cache is unchanged), exactly one query was
issued by this request (no in-request retry), and a subsequent resolve
of the same domain issues the query afresh. -/
theorem resolvDNSByProxy_invalid_reply (env : DNSEnv) (st : DNSState)
    (e : NetArg)
    (hmiss : st.remoteCache.lookup e.domain = none)
    (hbad : GoNet.parseIP
      (env.sendQueryReq (env.name ++ " " ++ e.domain)).1 = none) :
    (resolvDNSByProxy env st e).err = some .invalidReply ∧
    (resolvDNSByProxy env st e).st.remoteCache = st.remoteCache ∧
    (resolvDNSByProxy env st e).st.remoteCalls =
      st.remoteCalls ++ [env.name ++ " " ++ e.domain] ∧
    (resolvDNSByProxy env (resolvDNSByProxy env st e).st e).st.remoteCalls =
      st.remoteCalls
        ++ [env.name ++ " " ++ e.domain, env.name ++ " " ++ e.domain] := by
  have key : ∀ st' : DNSState, st'.remoteCache = st.remoteCache →
      resolvDNSByProxy env st' e =
      ⟨{ e with ip := (env.sendQueryReq (env.name ++ " " ++ e.domain)).1 },
        { st' with remoteCalls := st'.remoteCalls ++ [env.name ++ " " ++ e.domain] },
        some .invalidReply⟩ := by
    intro st' hst'
    unfold resolvDNSByProxy _resolvDNSByProxy sendQuery
    rw [hst']
    simp [hmiss, hbad]
  have h1 := key st rfl
  have h2 := key
    { st with remoteCalls := st.remoteCalls ++ [env.name ++ " " ++ e.domain] } rfl
  refine ⟨by rw [h1], by rw [h1], by rw [h1], ?_⟩
  simp only [h1, h2]
  simp

/-- Witness for C4 at a concrete input: the remote reply
`"not an ip"` does not parse. -/
theorem resolvDNSByProxy_invalid_reply_witness :
    (({} : DNSState).remoteCache.lookup "bad.example" = none) ∧
    GoNet.parseIP
      (egEnvBadReply.sendQueryReq
        (egEnvBadReply.name ++ " " ++ "bad.example")).1 = none ∧
    (resolvDNSByProxy egEnvBadReply {} { domain := "bad.example" }).err
        = some .invalidReply ∧
    (resolvDNSByProxy egEnvBadReply {} { domain := "bad.example" }).st.remoteCache
        = ({} : DNSState).remoteCache ∧
    (resolvDNSByProxy egEnvBadReply {} { domain := "bad.example" }).st.remoteCalls
        = ({} : DNSState).remoteCalls
          ++ [egEnvBadReply.name ++ " " ++ "bad.example"] ∧
    (resolvDNSByProxy egEnvBadReply
        (resolvDNSByProxy egEnvBadReply {} { domain := "bad.example" }).st
        { domain := "bad.example" }).st.remoteCalls
      = ({} : DNSState).remoteCalls
        ++ [egEnvBadReply.name ++ " " ++ "bad.example",
            egEnvBadReply.name ++ " " ++ "bad.example"] :=
  ⟨by decide, by decide,
    (resolvDNSByProxy_invalid_reply egEnvBadReply {} { domain := "bad.example" }
      (by decide) (by decide)).1,
    (resolvDNSByProxy_invalid_reply egEnvBadReply {} { domain := "bad.example" }
      (by decide) (by decide)).2.1,
    (resolvDNSByProxy_invalid_reply egEnvBadReply {} { domain := "bad.example" }
      (by decide) (by decide)).2.2.1,
    (resolvDNSByProxy_invalid_reply egEnvBadReply {} { domain := "bad.example" }
      (by decide) (by decide)).2.2.2⟩

end ET

namespace ET

/-! ## C6: `Handle` resolves via the local path only -/

/-- C6: for a request line with at least two space-separated fields,
`DNS.Handle` resolves the second field via the local path only — the
remote cache and the remote call log are untouched — and on success
appends exactly the resulting IP to the tunnel, while on a resolution
error nothing is written; a request line with fewer than two fields
yields the too-short error with no resolution, no state change and no
write. -/
theorem Handle_local_only (env : DNSEnv) (st : DNSState) (t : List String)
    (req f0 f1 : String) (rest : List String)
    (hsplit : GoStrings.split ' ' req = f0 :: f1 :: rest) :
    (Handle env st t req =
      (match (resolvDNSByLocal env st { domain := f1 }).err with
       | some er => ⟨t, (resolvDNSByLocal env st { domain := f1 }).st, some er⟩
       | none => ⟨t ++ [(resolvDNSByLocal env st { domain := f1 }).arg.ip],
                  (resolvDNSByLocal env st { domain := f1 }).st, none⟩)) ∧
    (resolvDNSByLocal env st { domain := f1 }).st.remoteCache = st.remoteCache ∧
    (resolvDNSByLocal env st { domain := f1 }).st.remoteCalls = st.remoteCalls ∧
    (∀ req2 : String, (GoStrings.split ' ' req2).length < 2 →
      Handle env st t req2 = ⟨t, st, some .reqTooShort⟩) := by
  refine ⟨?_, (resolvDNSByLocal_frame env st _).1,
    (resolvDNSByLocal_frame env st _).2.1, ?_⟩
  · unfold Handle
    rw [hsplit]
    simp
  · intro req2 h2
    unfold Handle
    simp [if_pos h2]

/-- Witness for C6 at concrete inputs: a well-formed request writes
the locally resolved IP; remote state is untouched. -/
theorem Handle_local_only_witness :
    (GoStrings.split ' ' "DNS direct.example" = ["DNS", "direct.example"]) ∧
    (Handle egEnv {} [] "DNS direct.example" =
      (match (resolvDNSByLocal egEnv {} { domain := "direct.example" }).err with
       | some er =>
          ⟨[], (resolvDNSByLocal egEnv {} { domain := "direct.example" }).st,
            some er⟩
       | none =>
          ⟨[] ++ [(resolvDNSByLocal egEnv {} { domain := "direct.example" }).arg.ip],
            (resolvDNSByLocal egEnv {} { domain := "direct.example" }).st,
            none⟩)) ∧
    (resolvDNSByLocal egEnv {} { domain := "direct.example" }).st.remoteCache
        = ({} : DNSState).remoteCache ∧
    (resolvDNSByLocal egEnv {} { domain := "direct.example" }).st.remoteCalls
        = ({} : DNSState).remoteCalls ∧
    (∀ req2 : String, (GoStrings.split ' ' req2).length < 2 →
      Handle egEnv {} [] req2 = ⟨[], {}, some .reqTooShort⟩) :=
  ⟨by decide,
    (Handle_local_only egEnv {} [] "DNS direct.example" "DNS" "direct.example" []
      (by decide)).1,
    (Handle_local_only egEnv {} [] "DNS direct.example" "DNS" "direct.example" []
      (by decide)).2.1,
    (Handle_local_only egEnv {} [] "DNS direct.example" "DNS" "direct.example" []
      (by decide)).2.2.1,
    (Handle_local_only egEnv {} [] "DNS direct.example" "DNS" "direct.example" []
      (by decide)).2.2.2⟩

end ET

namespace GoStrings

/-- ASCII fragment of Go `unicode.IsSpace` (`'\t' '\n' '\v' '\f' '\r'
' '`; the Unicode space classes do not occur in the embedded inputs). -/
def isSpaceGo (c : Char) : Bool :=
  c = ' ' || c = '\t' || c = '\n' || c = '\x0b' || c = '\x0c' || c = '\r'

/-- Go `strings.TrimSpace` on char lists: drop space characters from
both ends. -/
def trimSpace (l : List Char) : List Char :=
  ((l.dropWhile isSpaceGo).reverse.dropWhile isSpaceGo).reverse

/-- Go `strings.Replace(s, old, new, -1)` for one-character patterns. -/
def replaceChar (a b : Char) (l : List Char) : List Char :=
  l.map fun c => if c = a then b else c

/-- Go `strings.ToLower` (`Char.toLower` agrees with Go on ASCII and is
the identity on the characters the embedded inputs use). -/
def toLower (l : List Char) : List Char := l.map Char.toLower

/-- Go `strings.Split(s, "\r\n")` — the separator `exportKeyValues`
emits — splitting at the leftmost occurrence first. -/
def splitCRLF : List Char → List (List Char)
  | [] => [[]]
  | [c] => [[c]]
  | c :: d :: rest =>
    if c = '\r' ∧ d = '\n' then [] :: splitCRLF rest
    else
      match splitCRLF (d :: rest) with
      | [] => [[c]]
      | p :: ps => (c :: p) :: ps

end GoStrings

namespace Eagletunnel

/-! Embedding of the pure parts of `src/eagletunnel/controler.go`.
The file-system side (opening files, the `bufio.Scanner`) is
abstracted: the functions receive the list of raw lines the scanner
would yield, and Go strings are modelled as `List Char`. -/

/-- The per-line processing loop of `readLines`: strip everything from
the first `'#'`, trim, drop lines that became empty, replace tabs by
spaces and lower-case the rest, preserving order. -/
def readLines (raw : List (List Char)) : List (List Char) :=
  raw.filterMap fun line =>
    let line1 := (GoStrings.splitChar '#' line).headI
    let line2 := GoStrings.trimSpace line1
    if line2 = [] then none
    else some (GoStrings.toLower (GoStrings.replaceChar '\t' ' ' line2))

/-- The population loop of `readHosts`: split each processed hosts
line on spaces; with at least two fields, trim domain and ip and, when
both are nonempty, store `domain ↦ ip` (later lines override). -/
def readHostsLoop (hosts : List (List Char))
    (init : List Char → Option (List Char)) : List Char → Option (List Char) :=
  hosts.foldl (fun m host =>
    match GoStrings.splitChar ' ' host with
    | d :: i :: _ =>
      let domain := GoStrings.trimSpace d
      let ip := GoStrings.trimSpace i
      if domain ≠ [] ∧ ip ≠ [] then
        fun q => if q = domain then some ip else m q
      else m
    | _ => m) init

/-- The hosts cache produced by `readHosts` from the raw hosts-file
lines (each file's lines go through `readLines`; concatenation over
files is folded into one list), viewed over `String` as
`comm.HostsCache` is. -/
def hostsCacheOf (raw : List String) : String → Option String := fun q =>
  (readHostsLoop (readLines (raw.map String.data)) (fun _ => none) q.data).map
    String.mk

/-- The loop body of `getKeyValues`: a line that splits on `'='` into
at least two parts contributes the trimmed first part as key and the
trimmed `'='`-rejoin of the remaining parts as value; the key is
appended to the key list and the map entry overwritten. -/
def getKeyValuesStep
    (acc : (List Char → Option (List Char)) × List (List Char))
    (line : List Char) :
    (List Char → Option (List Char)) × List (List Char) :=
  match GoStrings.splitChar '=' line with
  | k :: r1 :: rs =>
    (fun q => if q = GoStrings.trimSpace k then
        some (GoStrings.trimSpace (List.intercalate ['='] (r1 :: rs)))
      else acc.1 q,
     acc.2 ++ [GoStrings.trimSpace k])
  | _ => acc

/-- Embedding of `getKeyValues`: fold the loop body over the lines, starting from
the empty map and the empty key list. -/
def getKeyValues (lines : List (List Char)) :
    (List Char → Option (List Char)) × List (List Char) :=
  lines.foldl getKeyValuesStep (fun _ => none, [])

/-- Embedding of `exportKeyValues`: serialize the keys in order as
`key + " = " + value + "\r\n"` (a key missing from the map yields Go's
zero-value empty string). -/
def exportKeyValues (keyValues : List Char → Option (List Char))
    (keys : List (List Char)) : List Char :=
  keys.foldr (fun key acc =>
    key ++ [' ', '=', ' '] ++ ((keyValues key).getD []) ++ ['\r', '\n'] ++ acc) []

end Eagletunnel

namespace Eagletunnel

/-! ## C7: case handling of the hosts overlay -/

/-- The function `Char.toLower` never yields an ASCII uppercase letter. -/
theorem toLower_not_upper (c : Char) :
    ¬(65 ≤ (Char.toLower c).toNat ∧ (Char.toLower c).toNat ≤ 90) := by
  unfold Char.toLower
  by_cases h : c.toNat ≥ 65 ∧ c.toNat ≤ 90
  · rw [if_pos h]
    have hv : (c.toNat + 32).isValidChar := by
      unfold Nat.isValidChar
      left
      omega
    have : (Char.ofNat (c.toNat + 32)).toNat = c.toNat + 32 := by
      unfold Char.ofNat
      rw [dif_pos hv]
      rfl
    rw [this]
    omega
  · rw [if_neg h]
    omega

/-- A string (char list) free of ASCII uppercase letters. -/
def UpFree (l : List Char) : Prop :=
  ∀ a ∈ l, ¬(65 ≤ a.toNat ∧ a.toNat ≤ 90)

/-- The splitter `splitChar` never returns the empty list of parts. -/
theorem splitChar_ne_nil (sep : Char) (l : List Char) :
    GoStrings.splitChar sep l ≠ [] := by
  cases l with
  | nil => simp [GoStrings.splitChar]
  | cons c rest =>
    unfold GoStrings.splitChar
    by_cases h : c = sep
    · simp [h]
    · simp only [if_neg h]
      cases GoStrings.splitChar sep rest <;> simp

/-- Every character of every part produced by `splitChar` comes from
the input. -/
theorem mem_of_mem_splitChar (sep a : Char) (l : List Char) (p : List Char)
    (hp : p ∈ GoStrings.splitChar sep l) (ha : a ∈ p) : a ∈ l := by
  induction l generalizing p with
  | nil =>
    simp [GoStrings.splitChar] at hp
    subst hp
    simp at ha
  | cons c rest ih =>
    unfold GoStrings.splitChar at hp
    by_cases h : c = sep
    · rw [if_pos h] at hp
      rcases List.mem_cons.mp hp with h1 | h1
      · subst h1; simp at ha
      · exact List.mem_cons_of_mem _ (ih p h1 ha)
    · rw [if_neg h] at hp
      rcases hsp : GoStrings.splitChar sep rest with _ | ⟨p0, ps⟩
      · exact absurd hsp (splitChar_ne_nil sep rest)
      · rw [hsp] at hp
        rcases List.mem_cons.mp hp with h1 | h1
        · subst h1
          rcases List.mem_cons.mp ha with h2 | h2
          · exact h2 ▸ List.mem_cons_self _ _
          · exact List.mem_cons_of_mem _
              (ih p0 (hsp ▸ List.mem_cons_self _ _) h2)
        · exact List.mem_cons_of_mem _
            (ih p (hsp ▸ List.mem_cons_of_mem _ h1) ha)

/-- Trimming preserves character provenance. -/
theorem mem_of_mem_trimSpace (a : Char) (l : List Char)
    (h : a ∈ GoStrings.trimSpace l) : a ∈ l := by
  unfold GoStrings.trimSpace at h
  rw [List.mem_reverse] at h
  have h1 := (List.dropWhile_sublist GoStrings.isSpaceGo).mem h
  rw [List.mem_reverse] at h1
  exact (List.dropWhile_sublist GoStrings.isSpaceGo).mem h1

/-- Every line `readLines` returns is free of ASCII uppercase
letters: the loop lower-cases each kept line. -/
theorem readLines_upFree (raw : List (List Char)) (l : List Char)
    (hl : l ∈ readLines raw) : UpFree l := by
  unfold readLines at hl
  rcases List.mem_filterMap.mp hl with ⟨line, _, hline⟩
  intro a ha
  by_cases hempty :
      GoStrings.trimSpace ((GoStrings.splitChar '#' line).headI) = []
  · simp [hempty] at hline
  · simp only [if_neg hempty, Option.some_inj] at hline
    subst hline
    rcases List.mem_map.mp ha with ⟨b, _, hb⟩
    subst hb
    exact toLower_not_upper b

/-- Keys of `readHostsLoop` inherit uppercase-freeness: a query that
contains an uppercase letter can only hit entries of the initial map. -/
theorem readHostsLoop_miss (hosts : List (List Char))
    (init : List Char → Option (List Char)) (q : List Char)
    (hhosts : ∀ l ∈ hosts, UpFree l) (hq : ¬ UpFree q)
    (hinit : init q = none) : readHostsLoop hosts init q = none := by
  induction hosts generalizing init with
  | nil => exact hinit
  | cons host rest ih =>
    have hhost : UpFree host := hhosts host (List.mem_cons_self _ _)
    have hrest : ∀ l ∈ rest, UpFree l :=
      fun l hl => hhosts l (List.mem_cons_of_mem _ hl)
    unfold readHostsLoop
    simp only [List.foldl_cons]
    rcases hsp : GoStrings.splitChar ' ' host with _ | ⟨d, _ | ⟨i, ditems⟩⟩
    · exact ih init hrest hinit
    · exact ih init hrest hinit
    · have hkey : UpFree (GoStrings.trimSpace d) := by
        intro a ha
        exact hhost a
          (mem_of_mem_splitChar ' ' a host d
            (hsp ▸ List.mem_cons_self _ _) (mem_of_mem_trimSpace a d ha))
      have hqne : q ≠ GoStrings.trimSpace d := by
        intro hcontra
        exact hq (hcontra ▸ hkey)
      dsimp only
      by_cases hne : GoStrings.trimSpace d ≠ [] ∧ GoStrings.trimSpace i ≠ []
      · rw [if_pos hne]
        refine ih _ hrest ?_
        simp [hqne, hinit]
      · rw [if_neg hne]
        exact ih init hrest hinit

/-- C7 (amended): hosts-file domains are lower-cased at load and the
lookup is an exact, case-sensitive map access, so a query containing
any ASCII uppercase letter never hits the overlay — `look4Hosts`
reports not-found with no error. -/
theorem look4Hosts_uppercase_misses (raw : List String) (q : String)
    (hq : ∃ c ∈ q.data, 65 ≤ c.toNat ∧ c.toNat ≤ 90) :
    ET.look4Hosts (hostsCacheOf raw) q = ("", false, none) := by
  have hmiss : hostsCacheOf raw q = none := by
    unfold hostsCacheOf
    rw [readHostsLoop_miss _ _ _
      (fun l hl => readLines_upFree _ l hl)
      (by rcases hq with ⟨c, hc, hup⟩; intro hfree; exact hfree c hc hup)
      rfl]
    rfl
  unfold ET.look4Hosts
  rw [hmiss]

/-- C7 counterexample: the hosts line `ads.example 1.2.3.4` stores the
IP under the lower-case key, and looking the domain up in its
upper-case variant does not return the stored IP — the lookup misses
entirely, refuting case-insensitive matching. -/
theorem look4Hosts_case_counterexample :
    hostsCacheOf ["ads.example 1.2.3.4"] "ads.example" = some "1.2.3.4" ∧
    ET.look4Hosts (hostsCacheOf ["ads.example 1.2.3.4"]) "ADS.EXAMPLE"
      = ("", false, none) := by
  constructor
  · decide
  · decide

/-- Witness for the amended C7 at a concrete input. -/
theorem look4Hosts_uppercase_misses_witness :
    (∃ c ∈ "ADS.EXAMPLE".data, 65 ≤ c.toNat ∧ c.toNat ≤ 90) ∧
    ET.look4Hosts (hostsCacheOf ["ads.example 1.2.3.4"]) "ADS.EXAMPLE"
      = ("", false, none) :=
  ⟨by decide,
    look4Hosts_uppercase_misses ["ads.example 1.2.3.4"] "ADS.EXAMPLE"
      (by decide)⟩

end Eagletunnel

namespace GoStrings

/-! ## Algebra of `splitChar`, `List.intercalate` and `trimSpace`,
used for the config round-trip. -/

/-- Splitting never yields an empty part list. -/
theorem splitChar_ne_nil' (sep : Char) (l : List Char) :
    splitChar sep l ≠ [] := by
  cases l with
  | nil => simp [splitChar]
  | cons c rest =>
    unfold splitChar
    by_cases h : c = sep
    · simp [h]
    · simp only [if_neg h]
      cases splitChar sep rest <;> simp

/-- Two-part unfolding of `List.intercalate`. -/
theorem intercalate_cons₂ (s x y : List Char) (zs : List (List Char)) :
    List.intercalate s (x :: y :: zs) = x ++ s ++ List.intercalate s (y :: zs) := by
  simp [List.intercalate, List.intersperse_cons_cons]

/-- Intercalating the separator back over a split is the identity. -/
theorem intercalate_splitChar (sep : Char) (l : List Char) :
    List.intercalate [sep] (splitChar sep l) = l := by
  induction l with
  | nil => simp [splitChar, List.intercalate]
  | cons c rest ih =>
    unfold splitChar
    by_cases h : c = sep
    · rw [if_pos h]
      rcases hsp : splitChar sep rest with _ | ⟨p, ps⟩
      · exact absurd hsp (splitChar_ne_nil' sep rest)
      · rw [hsp] at ih
        rw [intercalate_cons₂, ih, h]
        simp
    · rw [if_neg h]
      rcases hsp : splitChar sep rest with _ | ⟨p, ps⟩
      · exact absurd hsp (splitChar_ne_nil' sep rest)
      · rw [hsp] at ih
        cases ps with
        | nil =>
          simp only [List.intercalate] at ih ⊢
          simp at ih ⊢
          simp [ih]
        | cons p2 ps2 =>
          rw [intercalate_cons₂] at ih
          rw [intercalate_cons₂]
          simp only [List.cons_append]
          rw [← ih]

/-- Splitting a string of the shape `a ++ sep :: b` with `sep ∉ a`
splits off exactly `a`. -/
theorem splitChar_append_sep (sep : Char) (a b : List Char)
    (ha : sep ∉ a) : splitChar sep (a ++ sep :: b) = a :: splitChar sep b := by
  induction a with
  | nil => simp [splitChar]
  | cons c a' ih =>
    have hc : c ≠ sep := fun h => ha (h ▸ List.mem_cons_self _ _)
    have ha' : sep ∉ a' := fun h => ha (List.mem_cons_of_mem _ h)
    simp only [List.cons_append]
    conv_lhs => rw [splitChar]
    rw [if_neg hc, ih ha']

/-- A character of a part produced by `splitChar` is never the
separator itself. -/
theorem ne_sep_of_mem_splitChar (sep a : Char) (l p : List Char)
    (hp : p ∈ splitChar sep l) (ha : a ∈ p) : a ≠ sep := by
  induction l generalizing p with
  | nil =>
    simp [splitChar] at hp
    subst hp
    simp at ha
  | cons c rest ih =>
    unfold splitChar at hp
    by_cases h : c = sep
    · rw [if_pos h] at hp
      rcases List.mem_cons.mp hp with h1 | h1
      · subst h1; simp at ha
      · exact ih p h1 ha
    · rw [if_neg h] at hp
      rcases hsp : splitChar sep rest with _ | ⟨p0, ps⟩
      · exact absurd hsp (splitChar_ne_nil' sep rest)
      · rw [hsp] at hp
        rcases List.mem_cons.mp hp with h1 | h1
        · subst h1
          rcases List.mem_cons.mp ha with h2 | h2
          · exact h2 ▸ h
          · exact ih p0 (hsp ▸ List.mem_cons_self _ _) h2
        · exact ih p (hsp ▸ List.mem_cons_of_mem _ h1) ha

/-- Dropping a prefix leaves a list whose head fails the predicate. -/
theorem head?_dropWhile (p : Char → Bool) (l : List Char) :
    ∀ c, (l.dropWhile p).head? = some c → p c = false := by
  induction l with
  | nil => intro c h; simp at h
  | cons x xs ih =>
    intro c h
    rw [List.dropWhile_cons] at h
    by_cases hx : p x = true
    · exact ih c (by rwa [if_pos hx] at h)
    · rw [if_neg hx, List.head?_cons, Option.some_inj] at h
      subst h
      exact Bool.eq_false_iff.mpr hx

/-- A list whose head fails the predicate is untouched by
`dropWhile`. -/
theorem dropWhile_eq_self_of_head (p : Char → Bool) (l : List Char)
    (h : ∀ c, l.head? = some c → p c = false) : l.dropWhile p = l := by
  cases l with
  | nil => rfl
  | cons x xs =>
    rw [List.dropWhile_cons, if_neg]
    simp [h x rfl]

/-- Dropping a prefix keeps the last element when the result is nonempty. -/
theorem getLast?_dropWhile (p : Char → Bool) (l : List Char)
    (h : l.dropWhile p ≠ []) : (l.dropWhile p).getLast? = l.getLast? := by
  induction l with
  | nil => simp at h
  | cons x xs ih =>
    rw [List.dropWhile_cons] at h ⊢
    by_cases hx : p x = true
    · rw [if_pos hx] at h ⊢
      have hxs : xs ≠ [] := by
        intro hc
        subst hc
        simp [List.dropWhile] at h
      rcases xs with _ | ⟨y, ys⟩
      · exact absurd rfl hxs
      · rw [ih h, List.getLast?_cons_cons]
    · rw [if_neg hx]

/-- The head of a trimmed string is not a space. -/
theorem head?_trimSpace (l : List Char) :
    ∀ c, (trimSpace l).head? = some c → isSpaceGo c = false := by
  intro c hc
  unfold trimSpace at hc
  rw [List.head?_reverse] at hc
  have hne : (((l.dropWhile isSpaceGo).reverse).dropWhile isSpaceGo) ≠ [] := by
    intro hnil
    rw [hnil] at hc
    simp at hc
  rw [getLast?_dropWhile _ _ hne, List.getLast?_reverse] at hc
  exact head?_dropWhile _ _ c hc

/-- The last character of a trimmed string is not a space. -/
theorem getLast?_trimSpace (l : List Char) :
    ∀ c, (trimSpace l).getLast? = some c → isSpaceGo c = false := by
  intro c hc
  unfold trimSpace at hc
  rw [List.getLast?_reverse] at hc
  exact head?_dropWhile _ _ c hc

/-- A string with no space at either end is untouched by
`trimSpace`. -/
theorem trimSpace_eq_self (l : List Char)
    (h1 : ∀ c, l.head? = some c → isSpaceGo c = false)
    (h2 : ∀ c, l.getLast? = some c → isSpaceGo c = false) :
    trimSpace l = l := by
  unfold trimSpace
  rw [dropWhile_eq_self_of_head _ _ h1]
  rw [dropWhile_eq_self_of_head _ _ (by
    intro c hc
    rw [List.head?_reverse] at hc
    exact h2 c hc)]
  exact List.reverse_reverse l

/-- Trimming is idempotent. -/
theorem trimSpace_idem (l : List Char) :
    trimSpace (trimSpace l) = trimSpace l :=
  trimSpace_eq_self _ (head?_trimSpace l) (getLast?_trimSpace l)

/-- A leading space disappears under trimming. -/
theorem trimSpace_cons_space (c : Char) (l : List Char)
    (hc : isSpaceGo c = true) : trimSpace (c :: l) = trimSpace l := by
  unfold trimSpace
  rw [List.dropWhile_cons, if_pos hc]

/-- Behaviour of `dropWhile` over an appended space character. -/
theorem dropWhile_append_space (x : Char) (l : List Char)
    (hx : isSpaceGo x = true) :
    (l ++ [x]).dropWhile isSpaceGo =
      if l.dropWhile isSpaceGo = [] then []
      else l.dropWhile isSpaceGo ++ [x] := by
  induction l with
  | nil => simp [List.dropWhile, hx]
  | cons c l' ih =>
    simp only [List.cons_append, List.dropWhile_cons]
    by_cases hc : isSpaceGo c = true
    · rw [if_pos hc, if_pos hc, ih]
    · rw [if_neg hc, if_neg hc, if_neg (by simp)]
      simp

/-- A trailing space disappears under trimming. -/
theorem trimSpace_append_space (x : Char) (l : List Char)
    (hx : isSpaceGo x = true) : trimSpace (l ++ [x]) = trimSpace l := by
  unfold trimSpace
  rw [dropWhile_append_space x l hx]
  by_cases h : l.dropWhile isSpaceGo = []
  · rw [if_pos h, h]
  · rw [if_neg h, List.reverse_append]
    simp only [List.reverse_cons, List.reverse_nil, List.nil_append,
      List.singleton_append, List.dropWhile_cons, if_pos hx]

end GoStrings

namespace Eagletunnel

/-! ## C8: the config parse/serialize round trip -/

/-- The parsing step on a canonical serialized line
`k ++ " = " ++ v` (with `'='`-free, trimmed `k` and trimmed `v`)
recovers exactly the pair `(k, v)`. -/
theorem getKeyValuesStep_line
    (acc : (List Char → Option (List Char)) × List (List Char))
    (k v : List Char) (hk : '=' ∉ k)
    (htk : GoStrings.trimSpace k = k) (htv : GoStrings.trimSpace v = v) :
    getKeyValuesStep acc (k ++ [' ', '=', ' '] ++ v) =
      (fun q => if q = k then some v else acc.1 q, acc.2 ++ [k]) := by
  have hshape : k ++ [' ', '=', ' '] ++ v = (k ++ [' ']) ++ '=' :: (' ' :: v) := by
    simp
  have hsplit : GoStrings.splitChar '=' (k ++ [' ', '=', ' '] ++ v)
      = (k ++ [' ']) :: GoStrings.splitChar '=' (' ' :: v) := by
    rw [hshape]
    refine GoStrings.splitChar_append_sep '=' (k ++ [' ']) (' ' :: v) ?_
    intro hmem
    rcases List.mem_append.mp hmem with h | h
    · exact hk h
    · simp at h
  unfold getKeyValuesStep
  rw [hsplit]
  rcases hsp : GoStrings.splitChar '=' (' ' :: v) with _ | ⟨p1, ps1⟩
  · exact absurd hsp (GoStrings.splitChar_ne_nil' _ _)
  · dsimp only
    have hval : List.intercalate ['='] (p1 :: ps1) = ' ' :: v := by
      rw [← hsp]
      exact GoStrings.intercalate_splitChar '=' (' ' :: v)
    rw [hval, GoStrings.trimSpace_cons_space ' ' v rfl, htv,
      GoStrings.trimSpace_append_space ' ' k rfl, htk]

/-- Well-formedness of a parse accumulator: unknown keys map to
nothing and every recorded key is trimmed, `'='`-free, newline-free
and bound to a trimmed, newline-free value. -/
def GoodKV (mk : (List Char → Option (List Char)) × List (List Char)) : Prop :=
  (∀ q, q ∉ mk.2 → mk.1 q = none) ∧
  (∀ k ∈ mk.2, GoStrings.trimSpace k = k ∧ '=' ∉ k ∧ '\n' ∉ k ∧
    ∃ v, mk.1 k = some v ∧ GoStrings.trimSpace v = v ∧ '\n' ∉ v)

/-- The parse fold preserves well-formedness over newline-free
lines. -/
theorem goodKV_foldl (lines : List (List Char))
    (hnl : ∀ l ∈ lines, '\n' ∉ l) :
    ∀ acc, GoodKV acc → GoodKV (lines.foldl getKeyValuesStep acc) := by
  induction lines with
  | nil => intro acc hacc; exact hacc
  | cons line rest ih =>
    intro acc hacc
    have hline : '\n' ∉ line := hnl line (List.mem_cons_self _ _)
    have hrest : ∀ l ∈ rest, '\n' ∉ l :=
      fun l hl => hnl l (List.mem_cons_of_mem _ hl)
    rw [List.foldl_cons]
    refine ih hrest _ ?_
    unfold getKeyValuesStep
    rcases hsp : GoStrings.splitChar '=' line with _ | ⟨k0, _ | ⟨r1, rs⟩⟩
    · exact hacc
    · exact hacc
    · dsimp only
      have hkey0 : GoStrings.trimSpace (GoStrings.trimSpace k0)
          = GoStrings.trimSpace k0 := GoStrings.trimSpace_idem k0
      have hkeq : '=' ∉ GoStrings.trimSpace k0 := by
        intro hmem
        exact GoStrings.ne_sep_of_mem_splitChar '=' '=' line k0
          (hsp ▸ List.mem_cons_self _ _) (mem_of_mem_trimSpace _ _ hmem) rfl
      have hknl : '\n' ∉ GoStrings.trimSpace k0 := by
        intro hmem
        exact hline (mem_of_mem_splitChar '=' '\n' line k0
          (hsp ▸ List.mem_cons_self _ _) (mem_of_mem_trimSpace _ _ hmem))
      have hvnl : '\n' ∉ GoStrings.trimSpace (List.intercalate ['='] (r1 :: rs)) := by
        intro hmem
        have h1 : '\n' ∈ List.intercalate ['='] (r1 :: rs) :=
          mem_of_mem_trimSpace _ _ hmem
        have hline_eq : line = k0 ++ ['='] ++ List.intercalate ['='] (r1 :: rs) := by
          have := GoStrings.intercalate_splitChar '=' line
          rw [hsp, GoStrings.intercalate_cons₂] at this
          exact this.symm
        apply hline
        rw [hline_eq]
        exact List.mem_append.mpr (Or.inr h1)
      constructor
      · intro q hq
        have hq1 : q ∉ acc.2 := by
          intro hc
          exact hq (List.mem_append.mpr (Or.inl hc))
        have hq2 : q ≠ GoStrings.trimSpace k0 := by
          intro hc
          exact hq (List.mem_append.mpr (Or.inr (hc ▸ List.mem_cons_self _ _)))
        simp only [if_neg hq2]
        exact hacc.1 q hq1
      · intro k hkmem
        rcases List.mem_append.mp hkmem with hkin | hkin
        · by_cases hke : k = GoStrings.trimSpace k0
          · subst hke
            exact ⟨hkey0, hkeq, hknl,
              ⟨_, by simp, GoStrings.trimSpace_idem _, hvnl⟩⟩
          · obtain ⟨h1, h2, h3, v, hv1, hv2, hv3⟩ := hacc.2 k hkin
            exact ⟨h1, h2, h3, ⟨v, by simp [hke, hv1], hv2, hv3⟩⟩
        · have hke : k = GoStrings.trimSpace k0 := by
            rcases List.mem_cons.mp hkin with h | h
            · exact h
            · simp at h
          subst hke
          exact ⟨hkey0, hkeq, hknl,
            ⟨_, by simp, GoStrings.trimSpace_idem _, hvnl⟩⟩

end Eagletunnel

namespace GoStrings

/-- Splitting on CRLF after a newline-free prefix ending in the
separator peels off exactly that prefix. -/
theorem splitCRLF_append (l rest : List Char) (hl : '\n' ∉ l) :
    splitCRLF (l ++ '\r' :: '\n' :: rest) = l :: splitCRLF rest := by
  induction l with
  | nil =>
    show splitCRLF ('\r' :: '\n' :: rest) = [] :: splitCRLF rest
    conv_lhs => rw [splitCRLF]
    rw [if_pos ⟨rfl, rfl⟩]
  | cons c l' ih =>
    have hl' : '\n' ∉ l' := fun h => hl (List.mem_cons_of_mem _ h)
    cases l' with
    | nil =>
      show splitCRLF (c :: '\r' :: '\n' :: rest) = [c] :: splitCRLF rest
      conv_lhs => rw [splitCRLF]
      rw [if_neg (by simp)]
      have hinner : splitCRLF ('\r' :: '\n' :: rest) = [] :: splitCRLF rest := by
        conv_lhs => rw [splitCRLF]
        rw [if_pos ⟨rfl, rfl⟩]
      rw [hinner]
    | cons d l'' =>
      have hd : d ≠ '\n' := fun h => hl' (h ▸ List.mem_cons_self _ _)
      show splitCRLF (c :: d :: (l'' ++ '\r' :: '\n' :: rest)) = _
      conv_lhs => rw [splitCRLF]
      rw [if_neg (fun hcontra => hd hcontra.2)]
      rw [show d :: (l'' ++ '\r' :: '\n' :: rest)
            = (d :: l'') ++ '\r' :: '\n' :: rest from rfl, ih hl']

end GoStrings

namespace Eagletunnel

/-- Splitting the export of newline-free keys/values on CRLF recovers
one line per key, plus the empty tail Go's `Split` leaves after a
trailing separator. -/
theorem splitCRLF_export (m : List Char → Option (List Char))
    (keys : List (List Char))
    (h : ∀ k ∈ keys, '\n' ∉ k ∧ '\n' ∉ (m k).getD []) :
    GoStrings.splitCRLF (exportKeyValues m keys) =
      keys.map (fun k => k ++ [' ', '=', ' '] ++ (m k).getD []) ++ [[]] := by
  induction keys with
  | nil =>
    show GoStrings.splitCRLF [] = [[]]
    rfl
  | cons k keys' ih =>
    have hk := h k (List.mem_cons_self _ _)
    have hrest : ∀ k' ∈ keys', '\n' ∉ k' ∧ '\n' ∉ (m k').getD [] :=
      fun k' hk' => h k' (List.mem_cons_of_mem _ hk')
    have hline : '\n' ∉ k ++ [' ', '=', ' '] ++ (m k).getD [] := by
      intro hmem
      rcases List.mem_append.mp hmem with h1 | h1
      · rcases List.mem_append.mp h1 with h2 | h2
        · exact hk.1 h2
        · simp at h2
      · exact hk.2 h1
    have hshape : exportKeyValues m (k :: keys')
        = (k ++ [' ', '=', ' '] ++ (m k).getD [])
          ++ '\r' :: '\n' :: exportKeyValues m keys' := by
      show k ++ [' ', '=', ' '] ++ (m k).getD [] ++ ['\r', '\n']
            ++ exportKeyValues m keys' = _
      simp
    rw [hshape, GoStrings.splitCRLF_append _ _ hline, ih hrest]
    simp

/-- Re-parsing the canonical serialized lines of well-formed
keys/values recovers the map on recorded keys and defers to the
accumulator elsewhere. -/
theorem foldl_parse_export (m : List Char → Option (List Char))
    (keys : List (List Char))
    (hkeys : ∀ k ∈ keys, GoStrings.trimSpace k = k ∧ '=' ∉ k ∧
      ∃ v, m k = some v ∧ GoStrings.trimSpace v = v) :
    ∀ acc q, (List.foldl getKeyValuesStep acc
        (keys.map (fun k => k ++ [' ', '=', ' '] ++ (m k).getD []))).1 q
      = if q ∈ keys then m q else acc.1 q := by
  induction keys with
  | nil =>
    intro acc q
    simp
  | cons k keys' ih =>
    intro acc q
    obtain ⟨htk, hek, v, hv, htv⟩ := hkeys k (List.mem_cons_self _ _)
    have hrest : ∀ k' ∈ keys', GoStrings.trimSpace k' = k' ∧ '=' ∉ k' ∧
        ∃ v', m k' = some v' ∧ GoStrings.trimSpace v' = v' :=
      fun k' hk' => hkeys k' (List.mem_cons_of_mem _ hk')
    have hgetd : (m k).getD [] = v := by rw [hv]; rfl
    rw [List.map_cons, List.foldl_cons, hgetd,
      getKeyValuesStep_line acc k v hek htk htv, ih hrest]
    by_cases hq : q ∈ keys'
    · rw [if_pos hq, if_pos (List.mem_cons_of_mem _ hq)]
    · rw [if_neg hq]
      by_cases hqk : q = k
      · subst hqk
        rw [if_pos (List.mem_cons_self _ _)]
        simp [hv]
      · rw [if_neg (by
          intro hc
          rcases List.mem_cons.mp hc with h | h
          · exact hqk h
          · exact hq h)]
        simp [hqk]

/-- The step function ignores the empty trailing line the CRLF split
produces. -/
theorem getKeyValuesStep_nil
    (acc : (List Char → Option (List Char)) × List (List Char)) :
    getKeyValuesStep acc [] = acc := rfl

/-- C8: parsing configuration lines with `getKeyValues`, serializing
the resulting keys and map with `exportKeyValues`, splitting the
output back into lines, and parsing again yields the same key-value
map (for newline-free input lines — a configuration line cannot
contain a line break). -/
theorem getKeyValues_roundtrip (lines : List (List Char))
    (hnl : ∀ l ∈ lines, '\n' ∉ l) :
    ∀ q, (getKeyValues (GoStrings.splitCRLF
        (exportKeyValues (getKeyValues lines).1 (getKeyValues lines).2))).1 q
      = (getKeyValues lines).1 q := by
  intro q
  have hgood : GoodKV (getKeyValues lines) :=
    goodKV_foldl lines hnl _ ⟨fun _ _ => rfl, by simp⟩
  have hsplit := splitCRLF_export (getKeyValues lines).1 (getKeyValues lines).2
    (by
      intro k hk
      obtain ⟨_, _, hknl, v, hv, _, hvnl⟩ := hgood.2 k hk
      exact ⟨hknl, by rw [hv]; exact hvnl⟩)
  have hparse := foldl_parse_export (getKeyValues lines).1 (getKeyValues lines).2
    (by
      intro k hk
      obtain ⟨htk, hek, _, v, hv, htv, _⟩ := hgood.2 k hk
      exact ⟨htk, hek, v, hv, htv⟩)
  rw [hsplit]
  show (List.foldl getKeyValuesStep ((fun _ => none), [])
      ((getKeyValues lines).2.map
        (fun k => k ++ [' ', '=', ' '] ++ ((getKeyValues lines).1 k).getD [])
        ++ [[]])).1 q = (getKeyValues lines).1 q
  rw [List.foldl_append]
  simp only [List.foldl_cons, List.foldl_nil]
  rw [getKeyValuesStep_nil, hparse ((fun _ => none), []) q]
  by_cases hq : q ∈ (getKeyValues lines).2
  · rw [if_pos hq]
  · rw [if_neg hq]
    exact (hgood.1 q hq).symm

/-- Witness for C8 at a concrete line list (including a value with an
embedded `'='`, a duplicated key and an ignored malformed line). -/
theorem getKeyValues_roundtrip_witness :
    (∀ l ∈ [" listen = 0.0.0.0:8080 ".data, "socks=on".data,
        "data-key= 3=4 ".data, "socks=off".data, "malformed".data], '\n' ∉ l) ∧
    (∀ q, (getKeyValues (GoStrings.splitCRLF
        (exportKeyValues
          (getKeyValues [" listen = 0.0.0.0:8080 ".data, "socks=on".data,
            "data-key= 3=4 ".data, "socks=off".data, "malformed".data]).1
          (getKeyValues [" listen = 0.0.0.0:8080 ".data, "socks=on".data,
            "data-key= 3=4 ".data, "socks=off".data, "malformed".data]).2))).1 q
      = (getKeyValues [" listen = 0.0.0.0:8080 ".data, "socks=on".data,
          "data-key= 3=4 ".data, "socks=off".data, "malformed".data]).1 q) :=
  ⟨by decide,
    getKeyValues_roundtrip
      [" listen = 0.0.0.0:8080 ".data, "socks=on".data, "data-key= 3=4 ".data,
        "socks=off".data, "malformed".data] (by decide)⟩

end Eagletunnel

namespace SingleFlight

/-! ## C5: single-flight of the deduplicating DNS cache

Modelled from the spec: the text-cache library
(`cache.TextCache` / `cache.CacheNode`, not under src/) per §4.5:
`Get` atomically returns the existing node of a domain or inserts a
fresh PENDING node, making the caller the creator; the creator alone
invokes the underlying resolver and then publishes (`Update`) or
fails/evicts (`Destroy`); waiters block on the node and all receive
its terminal value.  The machine below is the interleaving semantics
of N threads resolving one fixed domain whose underlying resolution
result is the parameter `res`; `ncalls` counts resolver invocations
per node. -/

/-- State of a cache-node object. -/
inductive NodeState where
  | pending
  | ready (ip : String)
  | failed (msg : String)
deriving DecidableEq, Repr

/-- A node object with its per-node count of resolver invocations. -/
structure NodeObj where
  st : NodeState
  ncalls : Nat
deriving DecidableEq, Repr

/-- Program counter of one resolving thread. -/
inductive PC where
  | start
  | creator (j : Nat)
  | creatorGot (j : Nat) (res : Except String String)
  | waiting (j : Nat)
  | done (res : Except String String)

/-- Machine state: the arena of node objects ever created (indices
below `count`), the cache entry for the domain (the index of the
currently published node, if any), and each thread's program
counter. -/
structure MState where
  nodes : Nat → NodeObj
  count : Nat
  entry : Option Nat
  pcs : Nat → PC

/-- Initial state: no node created, no cache entry, every thread
about to call `Get`. -/
def MState.init : MState where
  nodes := fun _ => ⟨.pending, 0⟩
  count := 0
  entry := none
  pcs := fun _ => .start

/-- One interleaving step of the machine; `res` is the (fixed)
result the underlying resolver returns for this domain. -/
inductive Step (res : Except String String) : MState → MState → Prop where
  | create (s : MState) (i : Nat)
      (h1 : s.pcs i = .start) (h2 : s.entry = none) :
      Step res s
        { nodes := Function.update s.nodes s.count ⟨.pending, 0⟩
          count := s.count + 1
          entry := some s.count
          pcs := Function.update s.pcs i (.creator s.count) }
  | join (s : MState) (i j : Nat)
      (h1 : s.pcs i = .start) (h2 : s.entry = some j) :
      Step res s { s with pcs := Function.update s.pcs i (.waiting j) }
  | call (s : MState) (i j : Nat) (h1 : s.pcs i = .creator j) :
      Step res s
        { s with
          nodes := Function.update s.nodes j
            ⟨(s.nodes j).st, (s.nodes j).ncalls + 1⟩
          pcs := Function.update s.pcs i (.creatorGot j res) }
  | publishOk (s : MState) (i j : Nat) (ip : String)
      (h1 : s.pcs i = .creatorGot j (.ok ip)) :
      Step res s
        { s with
          nodes := Function.update s.nodes j ⟨.ready ip, (s.nodes j).ncalls⟩
          pcs := Function.update s.pcs i (.done (.ok ip)) }
  | publishErr (s : MState) (i j : Nat) (msg : String)
      (h1 : s.pcs i = .creatorGot j (.error msg)) :
      Step res s
        { s with
          nodes := Function.update s.nodes j ⟨.failed msg, (s.nodes j).ncalls⟩
          entry := none
          pcs := Function.update s.pcs i (.done (.error msg)) }
  | waitReady (s : MState) (i j : Nat) (ip : String)
      (h1 : s.pcs i = .waiting j) (h2 : (s.nodes j).st = .ready ip) :
      Step res s { s with pcs := Function.update s.pcs i (.done (.ok ip)) }
  | waitFailed (s : MState) (i j : Nat) (msg : String)
      (h1 : s.pcs i = .waiting j) (h2 : (s.nodes j).st = .failed msg) :
      Step res s { s with pcs := Function.update s.pcs i (.done (.error msg)) }

/-- Reachability from the initial state. -/
inductive Reach (res : Except String String) : MState → Prop where
  | init : Reach res MState.init
  | step {s s' : MState} : Reach res s → Step res s s' → Reach res s'

/-- A thread owning node `j` (it created it and has not yet
published). -/
def Creatorish (p : PC) (j : Nat) : Prop :=
  p = .creator j ∨ ∃ r, p = .creatorGot j r

/-- The inductive invariant: each node sees at most one resolver
call; a creator's node is uncalled; owners own existing nodes,
uniquely; an owner that has resolved holds `res`; terminal node
states agree with `res`; and every finished thread holds `res`. -/
def Inv (res : Except String String) (s : MState) : Prop :=
  (∀ j, (s.nodes j).ncalls ≤ 1) ∧
  (∀ i j, s.pcs i = .creator j → (s.nodes j).ncalls = 0) ∧
  (∀ i j, Creatorish (s.pcs i) j → j < s.count) ∧
  (∀ i₁ i₂ j, Creatorish (s.pcs i₁) j → Creatorish (s.pcs i₂) j → i₁ = i₂) ∧
  (∀ i j r, s.pcs i = .creatorGot j r → r = res) ∧
  (∀ j ip, (s.nodes j).st = .ready ip → res = .ok ip) ∧
  (∀ j msg, (s.nodes j).st = .failed msg → res = .error msg) ∧
  (∀ i r, s.pcs i = .done r → r = res)

/-- The initial state satisfies the invariant. -/
theorem inv_init (res : Except String String) : Inv res MState.init := by
  refine ⟨?_, ?_, ?_, ?_, ?_, ?_, ?_, ?_⟩ <;>
    simp [MState.init, Creatorish]

end SingleFlight

namespace SingleFlight

/-- One step preserves the invariant. -/
theorem inv_step (res : Except String String) {s s' : MState}
    (hinv : Inv res s) (hstep : Step res s s') : Inv res s' := by
  obtain ⟨I1, I2, I3, I4, I5, I6, I7, I8⟩ := hinv
  cases hstep with
  | create i h1 h2 =>
    refine ⟨?_, ?_, ?_, ?_, ?_, ?_, ?_, ?_⟩ <;> dsimp only
    · intro j
      rcases eq_or_ne j s.count with rfl | hj
      · rw [Function.update_same]
        exact Nat.zero_le 1
      · rw [Function.update_noteq hj]
        exact I1 j
    · intro i' j' hpc
      rcases eq_or_ne i i' with rfl | hi
      · rw [Function.update_same] at hpc
        simp only [PC.creator.injEq] at hpc
        subst hpc
        simp [Function.update_same]
      · rw [Function.update_noteq (Ne.symm hi)] at hpc
        have hlt := I3 i' j' (Or.inl hpc)
        rw [Function.update_noteq (Nat.ne_of_lt hlt)]
        exact I2 i' j' hpc
    · intro i' j' hpc
      rcases eq_or_ne i i' with rfl | hi
      · rw [Function.update_same] at hpc
        have hj : j' = s.count := by
          rcases hpc with h | ⟨r, h⟩
          · simp only [PC.creator.injEq] at h
            exact h.symm
          · simp at h
        subst hj
        omega
      · rw [Function.update_noteq (Ne.symm hi)] at hpc
        have := I3 i' j' hpc
        omega
    · intro i₁ i₂ j' hpc1 hpc2
      rcases eq_or_ne i i₁ with rfl | hi1
      · rcases eq_or_ne i i₂ with rfl | hi2
        · rfl
        · rw [Function.update_same] at hpc1
          rw [Function.update_noteq (Ne.symm hi2)] at hpc2
          have hj : j' = s.count := by
            rcases hpc1 with h | ⟨r, h⟩
            · simp only [PC.creator.injEq] at h
              exact h.symm
            · simp at h
          subst hj
          exact absurd (I3 i₂ _ hpc2) (by omega)
      · rcases eq_or_ne i i₂ with rfl | hi2
        · rw [Function.update_same] at hpc2
          rw [Function.update_noteq (Ne.symm hi1)] at hpc1
          have hj : j' = s.count := by
            rcases hpc2 with h | ⟨r, h⟩
            · simp only [PC.creator.injEq] at h
              exact h.symm
            · simp at h
          subst hj
          exact absurd (I3 i₁ _ hpc1) (by omega)
        · rw [Function.update_noteq (Ne.symm hi1)] at hpc1
          rw [Function.update_noteq (Ne.symm hi2)] at hpc2
          exact I4 i₁ i₂ j' hpc1 hpc2
    · intro i' j' r hpc
      rcases eq_or_ne i i' with rfl | hi
      · rw [Function.update_same] at hpc
        simp at hpc
      · rw [Function.update_noteq (Ne.symm hi)] at hpc
        exact I5 i' j' r hpc
    · intro j' ip hst
      rcases eq_or_ne j' s.count with rfl | hj
      · rw [Function.update_same] at hst
        simp at hst
      · rw [Function.update_noteq hj] at hst
        exact I6 j' ip hst
    · intro j' msg hst
      rcases eq_or_ne j' s.count with rfl | hj
      · rw [Function.update_same] at hst
        simp at hst
      · rw [Function.update_noteq hj] at hst
        exact I7 j' msg hst
    · intro i' r hpc
      rcases eq_or_ne i i' with rfl | hi
      · rw [Function.update_same] at hpc
        simp at hpc
      · rw [Function.update_noteq (Ne.symm hi)] at hpc
        exact I8 i' r hpc
  | join i j h1 h2 =>
    refine ⟨I1, ?_, ?_, ?_, ?_, I6, I7, ?_⟩ <;> dsimp only
    · intro i' j' hpc
      rcases eq_or_ne i i' with rfl | hi
      · rw [Function.update_same] at hpc
        simp at hpc
      · rw [Function.update_noteq (Ne.symm hi)] at hpc
        exact I2 i' j' hpc
    · intro i' j' hpc
      rcases eq_or_ne i i' with rfl | hi
      · rw [Function.update_same] at hpc
        rcases hpc with h | ⟨r, h⟩ <;> simp at h
      · rw [Function.update_noteq (Ne.symm hi)] at hpc
        exact I3 i' j' hpc
    · intro i₁ i₂ j' hpc1 hpc2
      rcases eq_or_ne i i₁ with rfl | hi1
      · rcases eq_or_ne i i₂ with rfl | hi2
        · rfl
        · rw [Function.update_same] at hpc1
          rcases hpc1 with h | ⟨r, h⟩ <;> simp at h
      · rcases eq_or_ne i i₂ with rfl | hi2
        · rw [Function.update_same] at hpc2
          rcases hpc2 with h | ⟨r, h⟩ <;> simp at h
        · rw [Function.update_noteq (Ne.symm hi1)] at hpc1
          rw [Function.update_noteq (Ne.symm hi2)] at hpc2
          exact I4 i₁ i₂ j' hpc1 hpc2
    · intro i' j' r hpc
      rcases eq_or_ne i i' with rfl | hi
      · rw [Function.update_same] at hpc
        simp at hpc
      · rw [Function.update_noteq (Ne.symm hi)] at hpc
        exact I5 i' j' r hpc
    · intro i' r hpc
      rcases eq_or_ne i i' with rfl | hi
      · rw [Function.update_same] at hpc
        simp at hpc
      · rw [Function.update_noteq (Ne.symm hi)] at hpc
        exact I8 i' r hpc
  | call i j h1 =>
    have hcrish : Creatorish (s.pcs i) j := Or.inl h1
    refine ⟨?_, ?_, ?_, ?_, ?_, ?_, ?_, ?_⟩ <;> dsimp only
    · intro j'
      rcases eq_or_ne j j' with rfl | hj
      · rw [Function.update_same]
        have h0 := I2 i j h1
        simp [h0]
      · rw [Function.update_noteq (Ne.symm hj)]
        exact I1 j'
    · intro i' j' hpc
      rcases eq_or_ne i i' with rfl | hi
      · rw [Function.update_same] at hpc
        simp at hpc
      · rw [Function.update_noteq (Ne.symm hi)] at hpc
        rcases eq_or_ne j j' with rfl | hj
        · exact absurd (I4 i' i j (Or.inl hpc) hcrish) (Ne.symm hi)
        · rw [Function.update_noteq (Ne.symm hj)]
          exact I2 i' j' hpc
    · intro i' j' hpc
      rcases eq_or_ne i i' with rfl | hi
      · rw [Function.update_same] at hpc
        have hj : j' = j := by
          rcases hpc with h | ⟨r, h⟩
          · simp at h
          · simp only [PC.creatorGot.injEq] at h
            exact h.1.symm
        subst hj
        exact I3 i j' hcrish
      · rw [Function.update_noteq (Ne.symm hi)] at hpc
        exact I3 i' j' hpc
    · intro i₁ i₂ j' hpc1 hpc2
      rcases eq_or_ne i i₁ with rfl | hi1
      · rcases eq_or_ne i i₂ with rfl | hi2
        · rfl
        · rw [Function.update_same] at hpc1
          rw [Function.update_noteq (Ne.symm hi2)] at hpc2
          have hj : j' = j := by
            rcases hpc1 with h | ⟨r, h⟩
            · simp at h
            · simp only [PC.creatorGot.injEq] at h
              exact h.1.symm
          subst hj
          exact I4 i i₂ j' hcrish hpc2
      · rcases eq_or_ne i i₂ with rfl | hi2
        · rw [Function.update_same] at hpc2
          rw [Function.update_noteq (Ne.symm hi1)] at hpc1
          have hj : j' = j := by
            rcases hpc2 with h | ⟨r, h⟩
            · simp at h
            · simp only [PC.creatorGot.injEq] at h
              exact h.1.symm
          subst hj
          exact I4 i₁ i j' hpc1 hcrish
        · rw [Function.update_noteq (Ne.symm hi1)] at hpc1
          rw [Function.update_noteq (Ne.symm hi2)] at hpc2
          exact I4 i₁ i₂ j' hpc1 hpc2
    · intro i' j' r hpc
      rcases eq_or_ne i i' with rfl | hi
      · rw [Function.update_same] at hpc
        simp only [PC.creatorGot.injEq] at hpc
        exact hpc.2.symm
      · rw [Function.update_noteq (Ne.symm hi)] at hpc
        exact I5 i' j' r hpc
    · intro j' ip hst
      rcases eq_or_ne j j' with rfl | hj
      · rw [Function.update_same] at hst
        exact I6 j ip hst
      · rw [Function.update_noteq (Ne.symm hj)] at hst
        exact I6 j' ip hst
    · intro j' msg hst
      rcases eq_or_ne j j' with rfl | hj
      · rw [Function.update_same] at hst
        exact I7 j msg hst
      · rw [Function.update_noteq (Ne.symm hj)] at hst
        exact I7 j' msg hst
    · intro i' r hpc
      rcases eq_or_ne i i' with rfl | hi
      · rw [Function.update_same] at hpc
        simp at hpc
      · rw [Function.update_noteq (Ne.symm hi)] at hpc
        exact I8 i' r hpc
  | publishOk i j ip h1 =>
    have hcrish : Creatorish (s.pcs i) j := Or.inr ⟨_, h1⟩
    have hres : res = .ok ip := (I5 i j (.ok ip) h1).symm
    refine ⟨?_, ?_, ?_, ?_, ?_, ?_, ?_, ?_⟩ <;> dsimp only
    · intro j'
      rcases eq_or_ne j j' with rfl | hj
      · rw [Function.update_same]
        exact I1 j
      · rw [Function.update_noteq (Ne.symm hj)]
        exact I1 j'
    · intro i' j' hpc
      rcases eq_or_ne i i' with rfl | hi
      · rw [Function.update_same] at hpc
        simp at hpc
      · rw [Function.update_noteq (Ne.symm hi)] at hpc
        rcases eq_or_ne j j' with rfl | hj
        · exact absurd (I4 i' i j (Or.inl hpc) hcrish) (Ne.symm hi)
        · rw [Function.update_noteq (Ne.symm hj)]
          exact I2 i' j' hpc
    · intro i' j' hpc
      rcases eq_or_ne i i' with rfl | hi
      · rw [Function.update_same] at hpc
        rcases hpc with h | ⟨r, h⟩ <;> simp at h
      · rw [Function.update_noteq (Ne.symm hi)] at hpc
        exact I3 i' j' hpc
    · intro i₁ i₂ j' hpc1 hpc2
      rcases eq_or_ne i i₁ with rfl | hi1
      · rcases eq_or_ne i i₂ with rfl | hi2
        · rfl
        · rw [Function.update_same] at hpc1
          rcases hpc1 with h | ⟨r, h⟩ <;> simp at h
      · rcases eq_or_ne i i₂ with rfl | hi2
        · rw [Function.update_same] at hpc2
          rcases hpc2 with h | ⟨r, h⟩ <;> simp at h
        · rw [Function.update_noteq (Ne.symm hi1)] at hpc1
          rw [Function.update_noteq (Ne.symm hi2)] at hpc2
          exact I4 i₁ i₂ j' hpc1 hpc2
    · intro i' j' r hpc
      rcases eq_or_ne i i' with rfl | hi
      · rw [Function.update_same] at hpc
        simp at hpc
      · rw [Function.update_noteq (Ne.symm hi)] at hpc
        exact I5 i' j' r hpc
    · intro j' ip' hst
      rcases eq_or_ne j j' with rfl | hj
      · rw [Function.update_same] at hst
        simp only [NodeState.ready.injEq] at hst
        subst hst
        exact hres
      · rw [Function.update_noteq (Ne.symm hj)] at hst
        exact I6 j' ip' hst
    · intro j' msg hst
      rcases eq_or_ne j j' with rfl | hj
      · rw [Function.update_same] at hst
        simp at hst
      · rw [Function.update_noteq (Ne.symm hj)] at hst
        exact I7 j' msg hst
    · intro i' r hpc
      rcases eq_or_ne i i' with rfl | hi
      · rw [Function.update_same] at hpc
        simp only [PC.done.injEq] at hpc
        subst hpc
        exact hres.symm
      · rw [Function.update_noteq (Ne.symm hi)] at hpc
        exact I8 i' r hpc
  | publishErr i j msg h1 =>
    have hcrish : Creatorish (s.pcs i) j := Or.inr ⟨_, h1⟩
    have hres : res = .error msg := (I5 i j (.error msg) h1).symm
    refine ⟨?_, ?_, ?_, ?_, ?_, ?_, ?_, ?_⟩ <;> dsimp only
    · intro j'
      rcases eq_or_ne j j' with rfl | hj
      · rw [Function.update_same]
        exact I1 j
      · rw [Function.update_noteq (Ne.symm hj)]
        exact I1 j'
    · intro i' j' hpc
      rcases eq_or_ne i i' with rfl | hi
      · rw [Function.update_same] at hpc
        simp at hpc
      · rw [Function.update_noteq (Ne.symm hi)] at hpc
        rcases eq_or_ne j j' with rfl | hj
        · exact absurd (I4 i' i j (Or.inl hpc) hcrish) (Ne.symm hi)
        · rw [Function.update_noteq (Ne.symm hj)]
          exact I2 i' j' hpc
    · intro i' j' hpc
      rcases eq_or_ne i i' with rfl | hi
      · rw [Function.update_same] at hpc
        rcases hpc with h | ⟨r, h⟩ <;> simp at h
      · rw [Function.update_noteq (Ne.symm hi)] at hpc
        exact I3 i' j' hpc
    · intro i₁ i₂ j' hpc1 hpc2
      rcases eq_or_ne i i₁ with rfl | hi1
      · rcases eq_or_ne i i₂ with rfl | hi2
        · rfl
        · rw [Function.update_same] at hpc1
          rcases hpc1 with h | ⟨r, h⟩ <;> simp at h
      · rcases eq_or_ne i i₂ with rfl | hi2
        · rw [Function.update_same] at hpc2
          rcases hpc2 with h | ⟨r, h⟩ <;> simp at h
        · rw [Function.update_noteq (Ne.symm hi1)] at hpc1
          rw [Function.update_noteq (Ne.symm hi2)] at hpc2
          exact I4 i₁ i₂ j' hpc1 hpc2
    · intro i' j' r hpc
      rcases eq_or_ne i i' with rfl | hi
      · rw [Function.update_same] at hpc
        simp at hpc
      · rw [Function.update_noteq (Ne.symm hi)] at hpc
        exact I5 i' j' r hpc
    · intro j' ip' hst
      rcases eq_or_ne j j' with rfl | hj
      · rw [Function.update_same] at hst
        simp at hst
      · rw [Function.update_noteq (Ne.symm hj)] at hst
        exact I6 j' ip' hst
    · intro j' msg' hst
      rcases eq_or_ne j j' with rfl | hj
      · rw [Function.update_same] at hst
        simp only [NodeState.failed.injEq] at hst
        subst hst
        exact hres
      · rw [Function.update_noteq (Ne.symm hj)] at hst
        exact I7 j' msg' hst
    · intro i' r hpc
      rcases eq_or_ne i i' with rfl | hi
      · rw [Function.update_same] at hpc
        simp only [PC.done.injEq] at hpc
        subst hpc
        exact hres.symm
      · rw [Function.update_noteq (Ne.symm hi)] at hpc
        exact I8 i' r hpc
  | waitReady i j ip h1 h2 =>
    have hres : res = .ok ip := I6 j ip h2
    refine ⟨I1, ?_, ?_, ?_, ?_, I6, I7, ?_⟩ <;> dsimp only
    · intro i' j' hpc
      rcases eq_or_ne i i' with rfl | hi
      · rw [Function.update_same] at hpc
        simp at hpc
      · rw [Function.update_noteq (Ne.symm hi)] at hpc
        exact I2 i' j' hpc
    · intro i' j' hpc
      rcases eq_or_ne i i' with rfl | hi
      · rw [Function.update_same] at hpc
        rcases hpc with h | ⟨r, h⟩ <;> simp at h
      · rw [Function.update_noteq (Ne.symm hi)] at hpc
        exact I3 i' j' hpc
    · intro i₁ i₂ j' hpc1 hpc2
      rcases eq_or_ne i i₁ with rfl | hi1
      · rcases eq_or_ne i i₂ with rfl | hi2
        · rfl
        · rw [Function.update_same] at hpc1
          rcases hpc1 with h | ⟨r, h⟩ <;> simp at h
      · rcases eq_or_ne i i₂ with rfl | hi2
        · rw [Function.update_same] at hpc2
          rcases hpc2 with h | ⟨r, h⟩ <;> simp at h
        · rw [Function.update_noteq (Ne.symm hi1)] at hpc1
          rw [Function.update_noteq (Ne.symm hi2)] at hpc2
          exact I4 i₁ i₂ j' hpc1 hpc2
    · intro i' j' r hpc
      rcases eq_or_ne i i' with rfl | hi
      · rw [Function.update_same] at hpc
        simp at hpc
      · rw [Function.update_noteq (Ne.symm hi)] at hpc
        exact I5 i' j' r hpc
    · intro i' r hpc
      rcases eq_or_ne i i' with rfl | hi
      · rw [Function.update_same] at hpc
        simp only [PC.done.injEq] at hpc
        subst hpc
        exact hres.symm
      · rw [Function.update_noteq (Ne.symm hi)] at hpc
        exact I8 i' r hpc
  | waitFailed i j msg h1 h2 =>
    have hres : res = .error msg := I7 j msg h2
    refine ⟨I1, ?_, ?_, ?_, ?_, I6, I7, ?_⟩ <;> dsimp only
    · intro i' j' hpc
      rcases eq_or_ne i i' with rfl | hi
      · rw [Function.update_same] at hpc
        simp at hpc
      · rw [Function.update_noteq (Ne.symm hi)] at hpc
        exact I2 i' j' hpc
    · intro i' j' hpc
      rcases eq_or_ne i i' with rfl | hi
      · rw [Function.update_same] at hpc
        rcases hpc with h | ⟨r, h⟩ <;> simp at h
      · rw [Function.update_noteq (Ne.symm hi)] at hpc
        exact I3 i' j' hpc
    · intro i₁ i₂ j' hpc1 hpc2
      rcases eq_or_ne i i₁ with rfl | hi1
      · rcases eq_or_ne i i₂ with rfl | hi2
        · rfl
        · rw [Function.update_same] at hpc1
          rcases hpc1 with h | ⟨r, h⟩ <;> simp at h
      · rcases eq_or_ne i i₂ with rfl | hi2
        · rw [Function.update_same] at hpc2
          rcases hpc2 with h | ⟨r, h⟩ <;> simp at h
        · rw [Function.update_noteq (Ne.symm hi1)] at hpc1
          rw [Function.update_noteq (Ne.symm hi2)] at hpc2
          exact I4 i₁ i₂ j' hpc1 hpc2
    · intro i' j' r hpc
      rcases eq_or_ne i i' with rfl | hi
      · rw [Function.update_same] at hpc
        simp at hpc
      · rw [Function.update_noteq (Ne.symm hi)] at hpc
        exact I5 i' j' r hpc
    · intro i' r hpc
      rcases eq_or_ne i i' with rfl | hi
      · rw [Function.update_same] at hpc
        simp only [PC.done.injEq] at hpc
        subst hpc
        exact hres.symm
      · rw [Function.update_noteq (Ne.symm hi)] at hpc
        exact I8 i' r hpc

end SingleFlight

namespace SingleFlight

/-- C5: in every reachable state of the single-flight cache machine —
any number of threads concurrently resolving the same domain, whose
underlying resolution yields `res` — each resolution node has invoked
the underlying resolver at most once (at most one invocation while a
resolution is in flight), and every finished caller observes the very
same result `res`, whether an IP or an error. -/
theorem single_flight_dns (res : Except String String) (s : MState)
    (h : Reach res s) :
    (∀ j, (s.nodes j).ncalls ≤ 1) ∧
    (∀ i r, s.pcs i = .done r → r = res) := by
  have hinv : Inv res s := by
    induction h with
    | init => exact inv_init res
    | step _ hs ih => exact inv_step res ih hs
  exact ⟨hinv.1, hinv.2.2.2.2.2.2.2⟩

/-- The concrete resolver answer used by the witness trace. -/
def egRes : Except String String := .ok "1.2.3.4"

/-- Witness trace, step 1: thread 0 creates the node. -/
def egS1 : MState where
  nodes := Function.update (fun _ => ⟨.pending, 0⟩) 0 ⟨.pending, 0⟩
  count := 1
  entry := some 0
  pcs := Function.update (fun _ => .start) 0 (.creator 0)

/-- Witness trace, step 2: thread 1 joins as a waiter. -/
def egS2 : MState where
  nodes := egS1.nodes
  count := 1
  entry := some 0
  pcs := Function.update egS1.pcs 1 (.waiting 0)

/-- Witness trace, step 3: thread 0 invokes the resolver. -/
def egS3 : MState where
  nodes := Function.update egS2.nodes 0 ⟨.pending, 1⟩
  count := 1
  entry := some 0
  pcs := Function.update egS2.pcs 0 (.creatorGot 0 egRes)

/-- Witness trace, step 4: thread 0 publishes the IP. -/
def egS4 : MState where
  nodes := Function.update egS3.nodes 0 ⟨.ready "1.2.3.4", 1⟩
  count := 1
  entry := some 0
  pcs := Function.update egS3.pcs 0 (.done (.ok "1.2.3.4"))

/-- Witness trace, step 5: thread 1 reads the published IP. -/
def egS5 : MState where
  nodes := egS4.nodes
  count := 1
  entry := some 0
  pcs := Function.update egS4.pcs 1 (.done (.ok "1.2.3.4"))

/-- Witness for C5 along a concrete five-step two-thread trace:
create, join, call, publish, wait. -/
theorem single_flight_dns_witness :
    (∀ j, (egS5.nodes j).ncalls ≤ 1) ∧
    (∀ i r, egS5.pcs i = .done r → r = egRes) :=
  single_flight_dns egRes egS5
    (Reach.step
      (Reach.step
        (Reach.step
          (Reach.step
            (Reach.step Reach.init
              (Step.create MState.init 0 rfl rfl))
            (Step.join egS1 1 0 (by simp [egS1, Function.update_noteq]) rfl))
          (Step.call egS2 0 0 (by simp [egS2, egS1, Function.update_noteq])))
        (Step.publishOk egS3 0 0 "1.2.3.4"
          (by simp [egS3, egRes])))
      (Step.waitReady egS4 1 0 "1.2.3.4"
        (by simp [egS4, egS3, egS2, egS1, Function.update_noteq])
        (by simp [egS4])))

end SingleFlight
